import Mathlib

/-!
Shallow embedding of the turn-taking core of the voice interview agent
(`src/app.py`). Text is modelled as `List Char`; the Python `set` of asked
questions is modelled as a duplicate-free insertion-ordered list; the external
adapters (Gemini generation, Deepgram synthesis, pygame playback) are oracle
parameters; raised exceptions are modelled as `Option AudioErr` results.
-/

set_option maxRecDepth 4000

namespace InterviewAgent

/-- The whitespace class of Python's `str.strip` / `\s` (ASCII part). -/
def isWs (c : Char) : Bool :=
  c = ' ' || c = '\t' || c = '\n' || c = '\r' || c = '\x0b' || c = '\x0c'

/-- Sentence-ending punctuation used by both regexes in `app.py`: `.`, `!`, `?`. -/
def isPunct (c : Char) : Bool :=
  c = '.' || c = '!' || c = '?'

/-- `str.lower()` (ASCII case fold, which is all the source's strings use). -/
def lower (l : List Char) : List Char := l.map Char.toLower

/-- Left part of `str.strip()`. -/
def trimLeft (l : List Char) : List Char := l.dropWhile (fun c => isWs c)

/-- Right part of `str.strip()`. -/
def trimRight (l : List Char) : List Char :=
  (l.reverse.dropWhile (fun c => isWs c)).reverse

/-- Python's `str.strip()`: drop leading and trailing whitespace. -/
def trim (l : List Char) : List Char := trimRight (trimLeft l)

/-- `" ".join(fragments)` from `on_message`. -/
def joinSpace (l : List (List Char)) : List Char := List.intercalate [' '] l

/-- Scanner for `re.findall(r'([^.!?]+\?)', text)`: accumulate a buffer of
non-punctuation characters; a `?` closes a nonempty buffer into a match
(the `+` needs at least one preceding character); `.` and `!` reset it. -/
def findall_go : List Char → List Char → List (List Char)
  | [], _ => []
  | c :: rest, buf =>
    if c = '?' then
      if buf = [] then findall_go rest []
      else (buf ++ ['?']) :: findall_go rest []
    else if c = '.' ∨ c = '!' then findall_go rest []
    else findall_go rest (buf ++ [c])

/-- The leftover scan buffer after running `findall_go` over a chunk of text. -/
def scan_buf : List Char → List Char → List Char
  | [], buf => buf
  | c :: rest, buf =>
    if c = '?' then scan_buf rest []
    else if c = '.' ∨ c = '!' then scan_buf rest []
    else scan_buf rest (buf ++ [c])

/-- `extract_questions` from `app.py`:
`[q.strip() for q in re.findall(r'([^.!?]+\?)', text)]`. -/
def extract_questions (text : List Char) : List (List Char) :=
  (findall_go text []).map trim

/-- `is_duplicate_question` from `app.py`:
`any(q.lower() in (eq.lower() for eq in existing_questions) for q in new_questions)`. -/
def is_duplicate_question (new_text : List Char)
    (existing_questions : List (List Char)) : Bool :=
  (extract_questions new_text).any fun q =>
    existing_questions.any fun eq => lower q == lower eq

/-- Start positions of the matches of `re.finditer(r'(?<=[.!?])\s+', text)`:
a position holding a whitespace character whose predecessor is sentence
punctuation (each such position starts a maximal-to-the-right `\s+` match). -/
def isBoundary (text : List Char) (i : Nat) : Bool :=
  decide (0 < i) && isWs (text.getD i 'x') && isPunct (text.getD (i - 1) 'x')

/-- `boundaries_indices` of `segment_text_by_sentence`, in increasing order. -/
def boundaryIndices (text : List Char) : List Nat :=
  (List.range text.length).filter (fun i => isBoundary text i)

/-- The slicing loop of `segment_text_by_sentence`: for each boundary index `b`
emit `text[start:b+1].strip()` and continue from `b + 1`; finally emit
`text[start:].strip()`. -/
def segmentsFrom (text : List Char) : List Nat → Nat → List (List Char)
  | [], start => [trim (text.drop start)]
  | b :: rest, start => trim ((text.take (b + 1)).drop start) :: segmentsFrom text rest (b + 1)

/-- `segment_text_by_sentence` from `app.py`. -/
def segment_text_by_sentence (text : List Char) : List (List Char) :=
  segmentsFrom text (boundaryIndices text) 0

/-- Role of a conversation turn (`"user"` / `"assistant"` in `app.py`). -/
inductive Role where
  | user
  | assistant
deriving DecidableEq, Repr

/-- One entry of `conversation_memory`: `{"role": ..., "content": ...}`. -/
structure ConvTurn where
  role : Role
  content : List Char
deriving DecidableEq, Repr

/-- A Deepgram transcript event as consumed by `on_message`:
`result.channel.alternatives[0].transcript`, `result.is_final`,
`result.speech_final`. -/
structure TranscriptEvent where
  transcript : List Char
  is_final : Bool
  speech_final : Bool
deriving DecidableEq, Repr

/-- The mutable state read and written by `on_message`: the module-level
globals `conversation_memory`, `asked_questions` (a Python `set`, modelled as a
duplicate-free insertion-ordered list) and `mute_microphone`, plus the
`main`-local `is_finals` and `has_introduced`.  `gen_calls` instruments how
many times the generation oracle has been consulted (each call to
`get_ai_response` reads the next value of the oracle stream). -/
structure SessionState where
  conversation_memory : List ConvTurn
  asked_questions : List (List Char)
  mute_microphone : Bool
  is_finals : List (List Char)
  has_introduced : Bool
  gen_calls : Nat
deriving DecidableEq, Repr

/-- The state at program start: empty memory, empty asked-question set, mute
flag cleared, empty fragment buffer, `has_introduced = False`. -/
def initial_state : SessionState :=
  { conversation_memory := []
    asked_questions := []
    mute_microphone := false
    is_finals := []
    has_introduced := false
    gen_calls := 0 }

/-- Python `set.update`: insert each element, skipping ones already present. -/
def set_update (s : List (List Char)) (new : List (List Char)) : List (List Char) :=
  new.foldl (fun acc q => if q ∈ acc then acc else acc ++ [q]) s

/-- Exceptions raised inside the synthesis/playback pipeline. -/
inductive AudioErr where
  | synthErr
  | playErr
deriving DecidableEq, Repr

/-- The synthesis loop inside `process_and_play_audio`: each segment is sent to
`synthesize_audio` and its bytes written to the temp file; the oracle `synthOk`
says whether the `requests.post` call succeeds; a failure raises out of the
loop (modelled as `some synthErr`). -/
def write_segments (synthOk : List Char → Bool) : List (List Char) → Option AudioErr
  | [] => none
  | seg :: rest => if synthOk seg then write_segments synthOk rest else some AudioErr.synthErr

/-- `play_audio` from `app.py`: plays the file to completion and only then
calls `mute_microphone.clear()`; if pygame raises (oracle `playOk = false`)
the clear is never reached and the incoming mute value survives.  Returns
(raised exception, mute flag afterwards). -/
def play_audio (playOk : Bool) (mute : Bool) : Option AudioErr × Bool :=
  if playOk then (none, false) else (some AudioErr.playErr, mute)

/-- `process_and_play_audio` from `app.py`.  The temp file is created with
`delete=False`; synthesis failure raises before `mute_microphone.set()` and
leaves the file behind; playback failure raises before `os.remove` and before
any clear; only the success path removes the file and clears the flag.
Returns (raised exception, mute flag afterwards, whether this call's temp
file still exists afterwards). -/
def process_and_play_audio (synthOk : List Char → Bool) (playOk : Bool)
    (text : List Char) (mute : Bool) : Option AudioErr × Bool × Bool :=
  let text_segments := segment_text_by_sentence text
  match write_segments synthOk text_segments with
  | some e => (some e, mute, true)
  | none =>
    -- mute_microphone.set(); play_audio(temp_path)
    match play_audio playOk true with
    | (some e, m) => (some e, m, true)
    | (none, _) =>
      -- os.remove(temp_path); mute_microphone.clear()
      (none, false, false)

/-- The introduction block of `on_message`: on the first reply of the session
prepend the fixed greeting and set `has_introduced`. -/
def intro_line : List Char :=
  ("Hello, this is Charles from XYZ Company. How are you today? " ++
    "I'll be conducting your initial screening interview. Let's begin.\n").data

/-- The fixed closing statement appended by `on_message`. -/
def closing_line : List Char :=
  "\nThank you for your time. We'll review your responses and get back to you soon.".data

def apply_intro (ai : List Char) (st : SessionState) : List Char × SessionState :=
  if st.has_introduced then (ai, st)
  else (intro_line ++ ai, { st with has_introduced := true })

/-- The duplicate-avoidance loop of `on_message`:
`while is_duplicate_question(ai_response, asked_questions) and retry_count < 3`,
regenerating each time.  `fuel` stands for `3 - retry_count`, so the loop is
entered with `fuel = 3`. -/
def retry_loop_aux (gen : Nat → List Char) :
    Nat → List Char → SessionState → List Char × SessionState
  | 0, ai, st => (ai, st)
  | fuel + 1, ai, st =>
    if is_duplicate_question ai st.asked_questions then
      retry_loop_aux gen fuel (gen st.gen_calls) { st with gen_calls := st.gen_calls + 1 }
    else (ai, st)

def retry_loop (gen : Nat → List Char) (ai : List Char) (st : SessionState) :
    List Char × SessionState :=
  retry_loop_aux gen 3 ai st

/-- The closing-statement block of `on_message`:
`if len(asked_questions) >= 5 and "closing" not in ai_response.lower()`. -/
def apply_closing (asked : List (List Char)) (ai : List Char) : List Char :=
  if 5 ≤ asked.length ∧ ¬ ("closing".data <:+: lower ai) then ai ++ closing_line
  else ai

/-- What one invocation of `on_message` produced: the exception that escaped
the handler (if any), the text handed to `process_and_play_audio` (if the
turn got that far), and the state afterwards. -/
structure TurnResult where
  err : Option AudioErr
  spoken : Option (List Char)
  state : SessionState
deriving DecidableEq, Repr

/-- The `speech_final` block of `on_message` (steps: reset the fragment
buffer, store the user turn, generate, introduce, deduplicate, record, close,
store the assistant turn, speak), acting on the state `st1` in which the final
fragment has already been appended to `is_finals`. -/
def speech_final_turn (gen : Nat → List Char) (synthOk : List Char → Bool)
    (playOk : Bool) (sentence : List Char) (st1 : SessionState) : TurnResult :=
  let _utterance := joinSpace st1.is_finals  -- only printed in the source
  let st2 := { st1 with is_finals := [] }
  let user_turn : ConvTurn := ⟨Role.user, trim sentence⟩
  let st3 := { st2 with
    conversation_memory := st2.conversation_memory ++ [user_turn] }
  let ai0 := gen st3.gen_calls  -- ai_response = get_ai_response()
  let st4 := { st3 with gen_calls := st3.gen_calls + 1 }
  let p1 := apply_intro ai0 st4
  let p2 := retry_loop gen p1.1 p1.2
  let ai2 := p2.1
  let st6 := p2.2
  let st7 := { st6 with
    asked_questions := set_update st6.asked_questions (extract_questions ai2) }
  let ai3 := apply_closing st7.asked_questions ai2
  let ai_turn : ConvTurn := ⟨Role.assistant, ai3⟩
  let st8 := { st7 with
    conversation_memory := st7.conversation_memory ++ [ai_turn] }
  let p3 := process_and_play_audio synthOk playOk ai3 st8.mute_microphone
  ⟨p3.1, some ai3, { st8 with mute_microphone := p3.2.1 }⟩

/-- `on_message` from `app.py`, with `get_ai_response` abstracted as the
oracle stream `gen` (the `n`-th call returns `gen n`) and the synthesis /
playback adapters abstracted as `synthOk` / `playOk`. -/
def on_message (gen : Nat → List Char) (synthOk : List Char → Bool) (playOk : Bool)
    (ev : TranscriptEvent) (st : SessionState) : TurnResult :=
  if st.mute_microphone then ⟨none, none, st⟩
  else
    let sentence := ev.transcript
    if sentence.length = 0 then ⟨none, none, st⟩
    else if ev.is_final then
      let st1 := { st with is_finals := st.is_finals ++ [sentence] }
      if ev.speech_final then speech_final_turn gen synthOk playOk sentence st1
      else ⟨none, none, st1⟩
    else ⟨none, none, st⟩  -- interim result: only printed

/-- The start index of the last slice taken by `segment_text_by_sentence`. -/
def lastStart (bs : List Nat) (start : Nat) : Nat := bs.foldl (fun _ b => b + 1) start

/-- The claim's exception clause, formalised from its words: the input ends
exactly at a sentence boundary when a nonempty all-whitespace tail follows a
part whose last character is sentence punctuation. -/
def ends_at_sentence_boundary (text : List Char) : Prop :=
  ∃ pre tail p, text = pre ++ tail ∧ tail ≠ [] ∧ (∀ c ∈ tail, isWs c = true) ∧
    pre.getLast? = some p ∧ isPunct p = true

/-- A mid-utterance state: one final fragment buffered, introduction already
done (so the evaluation below shows the buffering behaviour in isolation). -/
def buffered_state : SessionState :=
  { initial_state with
    is_finals := ["Hello there".data]
    has_introduced := true }

/-- A session state in which five questions have been recorded and the
introduction has been made. -/
def five_questions_state : SessionState :=
  { initial_state with
    asked_questions := ["a?".data, "b?".data, "c?".data, "d?".data, "e?".data]
    has_introduced := true }

/-! ### Lemmas about `trim` -/

lemma dropWhile_dropWhile {α : Type} (p : α → Bool) (l : List α) :
    (l.dropWhile p).dropWhile p = l.dropWhile p := by
  induction l with
  | nil => rfl
  | cons a t ih =>
    by_cases h : p a = true
    · simpa [List.dropWhile_cons, h] using ih
    · simp [List.dropWhile_cons, h]

lemma trimLeft_eq_nil_iff (l : List Char) :
    trimLeft l = [] ↔ ∀ c ∈ l, isWs c = true := by
  simp [trimLeft, List.dropWhile_eq_nil_iff]

lemma trimRight_eq_nil_iff (l : List Char) :
    trimRight l = [] ↔ ∀ c ∈ l, isWs c = true := by
  simp [trimRight, List.reverse_eq_nil_iff, List.dropWhile_eq_nil_iff, List.mem_reverse]

lemma trim_eq_nil_iff (l : List Char) :
    trim l = [] ↔ ∀ c ∈ l, isWs c = true := by
  rw [trim, trimRight_eq_nil_iff]
  constructor
  · intro h c hc
    rw [← List.takeWhile_append_dropWhile (fun c => isWs c) l] at hc
    rcases List.mem_append.mp hc with h1 | h2
    · exact List.mem_takeWhile_imp h1
    · exact h _ h2
  · intro h c hc
    exact h c ((List.dropWhile_sublist (fun c => isWs c)).subset hc)

lemma trim_ne_nil (l : List Char) (c : Char) (hc : c ∈ l) (hw : isWs c = false) :
    trim l ≠ [] := by
  intro h
  have := (trim_eq_nil_iff l).mp h c hc
  rw [hw] at this
  exact Bool.false_ne_true this

lemma trimLeft_trimLeft (l : List Char) : trimLeft (trimLeft l) = trimLeft l :=
  dropWhile_dropWhile _ l

lemma trimRight_trimRight (l : List Char) : trimRight (trimRight l) = trimRight l := by
  simp [trimRight, List.reverse_reverse, dropWhile_dropWhile]

lemma trimRight_eq_append (l : List Char) : ∃ s, l = trimRight l ++ s := by
  refine ⟨(l.reverse.takeWhile (fun c => isWs c)).reverse, ?_⟩
  have h := List.takeWhile_append_dropWhile (fun c => isWs c) l.reverse
  calc l = l.reverse.reverse := (List.reverse_reverse l).symm
    _ = (l.reverse.takeWhile (fun c => isWs c) ++
          l.reverse.dropWhile (fun c => isWs c)).reverse := by rw [h]
    _ = trimRight l ++ (l.reverse.takeWhile (fun c => isWs c)).reverse := by
          rw [List.reverse_append]; rfl

lemma trimLeft_of_fixed {l : List Char} (h : trimLeft l = l) :
    trimLeft (trimRight l) = trimRight l := by
  obtain ⟨s, hs⟩ := trimRight_eq_append l
  cases htr : trimRight l with
  | nil => rfl
  | cons a t =>
    have hl : l = a :: (t ++ s) := by rw [hs, htr]; simp
    have ha : isWs a = false := by
      by_contra hws
      have hws' : isWs a = true := by
        cases hx : isWs a
        · exact absurd hx hws
        · rfl
      rw [hl] at h
      rw [trimLeft, List.dropWhile_cons, if_pos hws'] at h
      have hlen := congrArg List.length h
      rw [List.length_cons] at hlen
      have hle := (List.dropWhile_sublist (l := t ++ s) (fun c => isWs c)).length_le
      omega
    rw [trimLeft, List.dropWhile_cons, if_neg (by simp [ha])]

lemma trim_trim (l : List Char) : trim (trim l) = trim l := by
  rw [trim, trim, trimLeft_of_fixed (trimLeft_trimLeft l), trimRight_trimRight]

/-! ### Lemmas about `set_update` -/

lemma set_update_append (new s : List (List Char)) :
    ∃ r, set_update s new = s ++ r := by
  induction new generalizing s with
  | nil => exact ⟨[], by simp [set_update]⟩
  | cons q rest ih =>
    show ∃ r, set_update (if q ∈ s then s else s ++ [q]) rest = s ++ r
    by_cases h : q ∈ s
    · rw [if_pos h]; exact ih s
    · rw [if_neg h]
      obtain ⟨r', hr'⟩ := ih (s ++ [q])
      exact ⟨[q] ++ r', by rw [hr', List.append_assoc]⟩

lemma mem_set_update {m : List Char} (new s : List (List Char))
    (h : m ∈ set_update s new) : m ∈ s ∨ m ∈ new := by
  induction new generalizing s with
  | nil => exact Or.inl h
  | cons q rest ih =>
    have h' : m ∈ set_update (if q ∈ s then s else s ++ [q]) rest := h
    rcases ih _ h' with hm | hm
    · by_cases hq : q ∈ s
      · rw [if_pos hq] at hm; exact Or.inl hm
      · rw [if_neg hq] at hm
        rcases List.mem_append.mp hm with hm | hm
        · exact Or.inl hm
        · simp at hm; exact Or.inr (by simp [hm])
    · exact Or.inr (List.mem_cons_of_mem _ hm)

lemma subset_set_update {q : List Char} (new s : List (List Char)) (h : q ∈ new) :
    q ∈ set_update s new := by
  induction new generalizing s with
  | nil => cases h
  | cons q' rest ih =>
    show q ∈ set_update (if q' ∈ s then s else s ++ [q']) rest
    rcases List.mem_cons.mp h with rfl | hm
    · obtain ⟨r, hr⟩ := set_update_append rest (if q ∈ s then s else s ++ [q])
      rw [hr]
      by_cases hq : q ∈ s
      · rw [if_pos hq]; exact List.mem_append.mpr (Or.inl hq)
      · rw [if_neg hq]; simp
    · exact ih _ hm

/-! ### Lemmas about the duplicate-avoidance loop -/

lemma retry_loop_aux_state (gen : Nat → List Char) (fuel : Nat) (ai : List Char)
    (st : SessionState) :
    (retry_loop_aux gen fuel ai st).2 =
      { st with gen_calls := (retry_loop_aux gen fuel ai st).2.gen_calls } := by
  induction fuel generalizing ai st with
  | zero => rfl
  | succ fuel ih =>
    rw [retry_loop_aux]
    by_cases h : is_duplicate_question ai st.asked_questions = true
    · rw [if_pos h]
      exact ih _ _
    · rw [if_neg h]

lemma retry_loop_aux_gen_calls (gen : Nat → List Char) (fuel : Nat) (ai : List Char)
    (st : SessionState) :
    (retry_loop_aux gen fuel ai st).2.gen_calls ≤ st.gen_calls + fuel := by
  induction fuel generalizing ai st with
  | zero => exact Nat.le_refl _
  | succ fuel ih =>
    rw [retry_loop_aux]
    by_cases h : is_duplicate_question ai st.asked_questions = true
    · rw [if_pos h]
      calc (retry_loop_aux gen fuel (gen st.gen_calls)
              { st with gen_calls := st.gen_calls + 1 }).2.gen_calls
          ≤ st.gen_calls + 1 + fuel := ih _ _
        _ = st.gen_calls + (fuel + 1) := by omega
    · rw [if_neg h]
      exact Nat.le_add_right _ _

lemma retry_loop_aux_not_dup (gen : Nat → List Char) (fuel : Nat) (ai : List Char)
    (st : SessionState) (h : is_duplicate_question ai st.asked_questions = false) :
    retry_loop_aux gen fuel ai st = (ai, st) := by
  cases fuel with
  | zero => rfl
  | succ fuel => rw [retry_loop_aux, if_neg (by simp [h])]

lemma is_duplicate_question_nil (ai : List Char) :
    is_duplicate_question ai [] = false := by
  simp [is_duplicate_question]

/-! ### Lemmas about the synthesis/playback pipeline -/

lemma process_and_play_audio_mute (synthOk : List Char → Bool) (text : List Char)
    (mute : Bool) (h : mute = false) :
    (process_and_play_audio synthOk true text mute).2.1 = false := by
  simp only [process_and_play_audio]
  rcases hw : write_segments synthOk (segment_text_by_sentence text) with _ | e <;>
    simp [hw, play_audio, h]

lemma process_and_play_audio_temp (synthOk : List Char → Bool) (playOk : Bool)
    (text : List Char) (mute : Bool) :
    (process_and_play_audio synthOk playOk text mute).2.2 =
      (process_and_play_audio synthOk playOk text mute).1.isSome := by
  simp only [process_and_play_audio]
  rcases hw : write_segments synthOk (segment_text_by_sentence text) with _ | e <;>
    cases playOk <;> simp [hw, play_audio]

/-! ### Lemmas about `findall_go` / `extract_questions` -/

lemma findall_go_append (x y buf : List Char) :
    findall_go (x ++ y) buf = findall_go x buf ++ findall_go y (scan_buf x buf) := by
  induction x generalizing buf with
  | nil => rfl
  | cons c rest ih =>
    by_cases hq : c = '?'
    · by_cases hb : buf = []
      · simp [findall_go, scan_buf, hq, hb, ih]
      · simp [findall_go, scan_buf, hq, hb, ih]
    · by_cases hp : c = '.' ∨ c = '!'
      · simp [findall_go, scan_buf, hq, hp, ih]
      · simp [findall_go, scan_buf, hq, hp, ih]

lemma findall_go_no_question (y : List Char) (h : ∀ c ∈ y, c ≠ '?') :
    ∀ buf, findall_go y buf = [] := by
  induction y with
  | nil => intro buf; rfl
  | cons c rest ih =>
    intro buf
    have hc : c ≠ '?' := h c (List.mem_cons_self c rest)
    by_cases hp : c = '.' ∨ c = '!'
    · simp [findall_go, hc, hp, ih fun d hd => h d (List.mem_cons_of_mem _ hd)]
    · simp [findall_go, hc, hp, ih fun d hd => h d (List.mem_cons_of_mem _ hd)]

lemma extract_questions_append_closing (x : List Char) :
    extract_questions (x ++ closing_line) = extract_questions x := by
  have hnq : ∀ c ∈ closing_line, c ≠ '?' := by decide
  rw [extract_questions, findall_go_append,
    findall_go_no_question closing_line hnq, List.append_nil]
  rfl

lemma extract_apply_closing (asked : List (List Char)) (ai : List Char) :
    extract_questions (apply_closing asked ai) = extract_questions ai := by
  rw [apply_closing]
  split
  · exact extract_questions_append_closing ai
  · rfl

lemma extract_questions_trimmed (text : List Char) (q : List Char)
    (h : q ∈ extract_questions text) : trim q = q := by
  rw [extract_questions] at h
  obtain ⟨raw, _, rfl⟩ := List.mem_map.mp h
  exact trim_trim raw

/-! ### Lemmas about sentence boundaries and `segmentsFrom` -/

lemma isWs_not_isPunct (c : Char) (h : isWs c = true) : isPunct c = false := by
  simp only [isWs, Bool.or_eq_true, decide_eq_true_eq] at h
  rcases h with ((((h | h) | h) | h) | h) | h <;> subst h <;> rfl

lemma isBoundary_spec (text : List Char) (b : Nat) (h : isBoundary text b = true) :
    0 < b ∧ b < text.length ∧ isWs (text.getD b 'x') = true ∧
      isPunct (text.getD (b - 1) 'x') = true := by
  simp only [isBoundary, Bool.and_eq_true, decide_eq_true_eq] at h
  obtain ⟨⟨h1, h2⟩, h3⟩ := h
  refine ⟨h1, ?_, h2, h3⟩
  by_contra hlen
  rw [List.getD_eq_default text 'x' (by omega)] at h2
  exact absurd h2 (by decide)

lemma boundary_gap (text : List Char) (b b' : Nat) (hb : isBoundary text b = true)
    (hb' : isBoundary text b' = true) (hlt : b < b') : b + 2 ≤ b' := by
  obtain ⟨_, _, hws, _⟩ := isBoundary_spec text b hb
  obtain ⟨_, _, _, hpu⟩ := isBoundary_spec text b' hb'
  by_contra hcon
  have : b' - 1 = b := by omega
  rw [this] at hpu
  rw [isWs_not_isPunct _ hws] at hpu
  exact absurd hpu (by decide)

lemma mem_boundaryIndices (text : List Char) (b : Nat) (h : b ∈ boundaryIndices text) :
    isBoundary text b = true :=
  (List.mem_filter.mp h).2

lemma boundaryIndices_pairwise (text : List Char) :
    (boundaryIndices text).Pairwise (· < ·) :=
  List.Pairwise.sublist (List.filter_sublist _) (List.pairwise_lt_range _)

lemma drop_take_append {α : Type} (l : List α) (s k : Nat) (h1 : s ≤ k)
    (h2 : k ≤ l.length) : (l.take k).drop s ++ l.drop k = l.drop s := by
  conv_rhs => rw [← List.take_append_drop k l]
  rw [List.drop_append_eq_append_drop, List.length_take]
  have h3 : s - (k ⊓ l.length) = 0 := by
    have : k ⊓ l.length = k := by omega
    omega
  rw [h3, List.drop_zero]

lemma segmentsFrom_ne_nil (text : List Char) (bs : List Nat) (start : Nat) :
    segmentsFrom text bs start ≠ [] := by
  cases bs <;> simp [segmentsFrom]

lemma segmentsFrom_chunks (text : List Char) (bs : List Nat) (start : Nat)
    (hlen : ∀ b ∈ bs, b < text.length) (hstart : ∀ b ∈ bs, start ≤ b + 1)
    (hsort : bs.Pairwise (· < ·)) :
    ∃ chunks : List (List Char), chunks.flatten = text.drop start ∧
      segmentsFrom text bs start = chunks.map trim := by
  induction bs generalizing start with
  | nil => exact ⟨[text.drop start], by simp [segmentsFrom]⟩
  | cons b rest ih =>
    have hb : b < text.length := hlen b (List.mem_cons_self b rest)
    obtain ⟨chunks', hj, hseg⟩ := ih (b + 1)
      (fun b' hb' => hlen b' (List.mem_cons_of_mem _ hb'))
      (fun b' hb' => by
        have := (List.pairwise_cons.mp hsort).1 b' hb'
        omega)
      (List.pairwise_cons.mp hsort).2
    refine ⟨(text.take (b + 1)).drop start :: chunks', ?_, ?_⟩
    · rw [List.flatten, hj]
      exact drop_take_append text start (b + 1)
        (hstart b (List.mem_cons_self b rest)) (by omega)
    · rw [segmentsFrom, List.map_cons, hseg]

lemma segmentsFrom_dropLast_ne_nil (text : List Char) (bs : List Nat) (start : Nat)
    (hbd : ∀ b ∈ bs, isBoundary text b = true) (hstart : ∀ b ∈ bs, start + 1 ≤ b)
    (hsort : bs.Pairwise (· < ·)) :
    ∀ seg ∈ (segmentsFrom text bs start).dropLast, seg ≠ [] := by
  induction bs generalizing start with
  | nil => simp [segmentsFrom]
  | cons b rest ih =>
    have hb := hbd b (List.mem_cons_self b rest)
    obtain ⟨hb0, hblen, _, hbpu⟩ := isBoundary_spec text b hb
    have hsb : start + 1 ≤ b := hstart b (List.mem_cons_self b rest)
    intro seg hseg
    rw [segmentsFrom] at hseg
    obtain ⟨s2, t2, h2⟩ : ∃ s2 t2, segmentsFrom text rest (b + 1) = s2 :: t2 := by
      cases hr : segmentsFrom text rest (b + 1) with
      | nil => exact absurd hr (segmentsFrom_ne_nil text rest (b + 1))
      | cons s2 t2 => exact ⟨s2, t2, rfl⟩
    rw [h2, List.dropLast_cons₂, ← h2] at hseg
    rcases List.mem_cons.mp hseg with rfl | hseg'
    · -- the head segment contains the punctuation character text[b-1]
      have hidx : b - 1 - start < ((text.take (b + 1)).drop start).length := by
        rw [List.length_drop, List.length_take]
        omega
      have hidx2 : b - 1 < text.length := by omega
      have hmem : text[b - 1] ∈ (text.take (b + 1)).drop start := by
        have : ((text.take (b + 1)).drop start)[b - 1 - start] = text[b - 1] := by
          rw [List.getElem_drop, List.getElem_take]
          congr 1
          omega
        rw [← this]
        exact List.getElem_mem hidx
      apply trim_ne_nil _ (text[b - 1]) hmem
      have : text.getD (b - 1) 'x' = text[b - 1] := List.getD_eq_getElem text 'x' hidx2
      rw [this] at hbpu
      by_contra hws
      have hws' : isWs text[b - 1] = true := by
        cases hx : isWs text[b - 1]
        · exact absurd hx hws
        · rfl
      rw [isWs_not_isPunct _ hws'] at hbpu
      exact absurd hbpu (by decide)
    · refine ih (b + 1) (fun b' hb' => hbd b' (List.mem_cons_of_mem _ hb'))
        (fun b' hb' => ?_) (List.pairwise_cons.mp hsort).2 seg hseg'
      have hlt := (List.pairwise_cons.mp hsort).1 b' hb'
      have := boundary_gap text b b' hb (hbd b' (List.mem_cons_of_mem _ hb')) hlt
      omega

lemma segmentsFrom_getLast (text : List Char) (bs : List Nat) (start : Nat) :
    (segmentsFrom text bs start).getLast? = some (trim (text.drop (lastStart bs start))) := by
  induction bs generalizing start with
  | nil => rfl
  | cons b rest ih =>
    rw [segmentsFrom]
    obtain ⟨s2, t2, h2⟩ : ∃ s2 t2, segmentsFrom text rest (b + 1) = s2 :: t2 := by
      cases hr : segmentsFrom text rest (b + 1) with
      | nil => exact absurd hr (segmentsFrom_ne_nil text rest (b + 1))
      | cons s2 t2 => exact ⟨s2, t2, rfl⟩
    rw [h2, List.getLast?_cons_cons, ← h2, ih]
    rfl

lemma lastStart_nil (start : Nat) : lastStart [] start = start := rfl

lemma lastStart_concat (bs : List Nat) (b start : Nat) :
    lastStart (bs ++ [b]) start = b + 1 := by
  rw [lastStart, List.foldl_append]
  rfl

lemma last_segment_empty_cases (text : List Char)
    (h : (segment_text_by_sentence text).getLast? = some []) :
    (∀ c ∈ text, isWs c = true) ∨ ends_at_sentence_boundary text := by
  rw [segment_text_by_sentence, segmentsFrom_getLast] at h
  have htr : trim (text.drop (lastStart (boundaryIndices text) 0)) = [] :=
    Option.some.inj h
  have hws := (trim_eq_nil_iff _).mp htr
  rcases List.eq_nil_or_concat (boundaryIndices text) with hnil | ⟨bs', b, hcat⟩
  · left
    rw [hnil, lastStart_nil, List.drop_zero] at hws
    exact hws
  · right
    have hbmem : b ∈ boundaryIndices text := by rw [hcat]; simp
    have hb := mem_boundaryIndices text b hbmem
    obtain ⟨hb0, hblen, hbws, hbpu⟩ := isBoundary_spec text b hb
    rw [hcat, List.concat_eq_append, lastStart_concat] at hws
    refine ⟨text.take b, text.drop b, text.getD (b - 1) 'x', ?_, ?_, ?_, ?_, hbpu⟩
    · exact (List.take_append_drop b text).symm
    · rw [List.drop_eq_getElem_cons hblen]
      exact List.cons_ne_nil _ _
    · intro c hc
      rw [List.drop_eq_getElem_cons hblen] at hc
      rcases List.mem_cons.mp hc with rfl | hc'
      · rw [← List.getD_eq_getElem text 'x' hblen]
        exact hbws
      · exact hws c hc'
    · rw [List.getD_eq_getElem text 'x' (show b - 1 < text.length by omega)]
      have hlen : (text.take b).length = b := by
        rw [List.length_take]
        omega
      rw [List.getLast?_eq_getElem?, hlen, List.getElem?_take]
      rw [if_pos (show b - 1 < b by omega)]
      exact List.getElem?_eq_getElem (by omega)

/-! ### Lemmas about `apply_intro`, `speech_final_turn` and `on_message` -/

lemma apply_intro_state (ai : List Char) (st : SessionState) :
    (apply_intro ai st).2 =
      { st with has_introduced := (apply_intro ai st).2.has_introduced } := by
  rw [apply_intro]
  split <;> rfl

lemma apply_intro_has_introduced (ai : List Char) (st : SessionState) :
    (apply_intro ai st).2.has_introduced = true := by
  rw [apply_intro]
  split
  · assumption
  · rfl

lemma apply_intro_gen_calls (ai : List Char) (st : SessionState) :
    (apply_intro ai st).2.gen_calls = st.gen_calls := by
  rw [apply_intro]
  split <;> rfl

lemma apply_intro_of_not_introduced (ai : List Char) (st : SessionState)
    (h : st.has_introduced = false) :
    apply_intro ai st = (intro_line ++ ai, { st with has_introduced := true }) := by
  rw [apply_intro, if_neg (by simp [h])]

/-- Field-level characterisation of a speech-final turn: the spoken reply is
the deduplicated reply with the closing rule applied, the asked-question set
is the old one updated with the reply's extracted questions, the conversation
memory gains exactly the user turn and the assistant turn, and
`has_introduced` ends up true. -/
lemma speech_final_turn_spec (gen : Nat → List Char) (synthOk : List Char → Bool)
    (playOk : Bool) (sentence : List Char) (st1 : SessionState) :
    ∃ ai2 : List Char,
      (speech_final_turn gen synthOk playOk sentence st1).spoken =
        some (apply_closing (set_update st1.asked_questions (extract_questions ai2)) ai2) ∧
      (speech_final_turn gen synthOk playOk sentence st1).state.asked_questions =
        set_update st1.asked_questions (extract_questions ai2) ∧
      (speech_final_turn gen synthOk playOk sentence st1).state.conversation_memory =
        st1.conversation_memory ++
          [⟨Role.user, trim sentence⟩,
            ⟨Role.assistant,
              apply_closing (set_update st1.asked_questions (extract_questions ai2)) ai2⟩] ∧
      (speech_final_turn gen synthOk playOk sentence st1).state.has_introduced = true ∧
      (speech_final_turn gen synthOk playOk sentence st1).state.is_finals = [] ∧
      (speech_final_turn gen synthOk playOk sentence st1).state.gen_calls ≤
        st1.gen_calls + 4 := by
  simp only [speech_final_turn]
  obtain ⟨ai1, st5, hp1⟩ : ∃ a s, apply_intro (gen st1.gen_calls)
      { st1 with
        is_finals := [],
        conversation_memory := st1.conversation_memory ++ [⟨Role.user, trim sentence⟩],
        gen_calls := st1.gen_calls + 1 } = (a, s) := ⟨_, _, rfl⟩
  obtain ⟨ai2, st6, hp2⟩ : ∃ a s, retry_loop gen ai1 st5 = (a, s) := ⟨_, _, rfl⟩
  have hst5 := apply_intro_state (gen st1.gen_calls)
    { st1 with
      is_finals := [],
      conversation_memory := st1.conversation_memory ++ [⟨Role.user, trim sentence⟩],
      gen_calls := st1.gen_calls + 1 }
  rw [hp1] at hst5
  have hst6 := retry_loop_aux_state gen 3 ai1 st5
  rw [show retry_loop_aux gen 3 ai1 st5 = retry_loop gen ai1 st5 from rfl, hp2] at hst6
  have hcalls := retry_loop_aux_gen_calls gen 3 ai1 st5
  rw [show retry_loop_aux gen 3 ai1 st5 = retry_loop gen ai1 st5 from rfl, hp2] at hcalls
  simp only [] at hst5 hst6 hcalls
  have h5a : st5.asked_questions = st1.asked_questions := by rw [hst5]
  have h5m : st5.conversation_memory =
      st1.conversation_memory ++ [⟨Role.user, trim sentence⟩] := by rw [hst5]
  have h5h : st5.has_introduced = true := by
    have h := apply_intro_has_introduced (gen st1.gen_calls)
      { st1 with
        is_finals := [],
        conversation_memory := st1.conversation_memory ++ [⟨Role.user, trim sentence⟩],
        gen_calls := st1.gen_calls + 1 }
    rw [hp1] at h
    exact h
  have h5g : st5.gen_calls = st1.gen_calls + 1 := by
    have h := apply_intro_gen_calls (gen st1.gen_calls)
      { st1 with
        is_finals := [],
        conversation_memory := st1.conversation_memory ++ [⟨Role.user, trim sentence⟩],
        gen_calls := st1.gen_calls + 1 }
    rw [hp1] at h
    exact h
  have h6a : st6.asked_questions = st1.asked_questions := by rw [hst6, ← h5a]
  have h6m : st6.conversation_memory =
      st1.conversation_memory ++ [⟨Role.user, trim sentence⟩] := by rw [hst6, ← h5m]
  have h6h : st6.has_introduced = true := by rw [hst6]; exact h5h
  have h6g : st6.gen_calls ≤ st1.gen_calls + 4 := by omega
  have h6f : st6.is_finals = [] := by rw [hst6, hst5]
  refine ⟨ai2, ?_, ?_, ?_, ?_, ?_, ?_⟩ <;>
    simp [hp1, hp2, h6a, h6m, h6h, h6g, h6f, List.append_assoc]

lemma retry_loop_nil_asked (gen : Nat → List Char) (ai : List Char)
    (st : SessionState) (h : st.asked_questions = []) :
    retry_loop gen ai st = (ai, st) :=
  retry_loop_aux_not_dup gen 3 ai st (by rw [h, is_duplicate_question_nil])

/-- On the success path of playback, a speech-final turn always hands back a
cleared mute flag. -/
lemma speech_final_turn_mute (gen : Nat → List Char) (synthOk : List Char → Bool)
    (sentence : List Char) (st1 : SessionState) (hm : st1.mute_microphone = false) :
    (speech_final_turn gen synthOk true sentence st1).state.mute_microphone = false := by
  simp only [speech_final_turn]
  obtain ⟨ai1, st5, hp1⟩ : ∃ a s, apply_intro (gen st1.gen_calls)
      { st1 with
        is_finals := [],
        conversation_memory := st1.conversation_memory ++ [⟨Role.user, trim sentence⟩],
        gen_calls := st1.gen_calls + 1 } = (a, s) := ⟨_, _, rfl⟩
  obtain ⟨ai2, st6, hp2⟩ : ∃ a s, retry_loop gen ai1 st5 = (a, s) := ⟨_, _, rfl⟩
  have hst5 := apply_intro_state (gen st1.gen_calls)
    { st1 with
      is_finals := [],
      conversation_memory := st1.conversation_memory ++ [⟨Role.user, trim sentence⟩],
      gen_calls := st1.gen_calls + 1 }
  rw [hp1] at hst5
  have hst6 := retry_loop_aux_state gen 3 ai1 st5
  rw [show retry_loop_aux gen 3 ai1 st5 = retry_loop gen ai1 st5 from rfl, hp2] at hst6
  simp only [] at hst5 hst6
  have h6mu : st6.mute_microphone = false := by
    rw [hst6, hst5]
    exact hm
  simp only [hp1, hp2]
  exact process_and_play_audio_mute synthOk _ _ h6mu

/-- A speech-final turn taken from a first-turn state (nothing introduced yet,
no questions recorded yet) speaks and stores the introduction exactly once, as
a prefix of the raw generated reply, possibly followed by the closing line. -/
lemma speech_final_turn_first (gen : Nat → List Char) (synthOk : List Char → Bool)
    (playOk : Bool) (sentence : List Char) (st1 : SessionState)
    (hi : st1.has_introduced = false) (ha : st1.asked_questions = []) :
    ∃ cl, (cl = [] ∨ cl = closing_line) ∧
      (speech_final_turn gen synthOk playOk sentence st1).spoken =
        some (intro_line ++ gen st1.gen_calls ++ cl) ∧
      (speech_final_turn gen synthOk playOk sentence
          st1).state.conversation_memory.getLast? =
        some ⟨Role.assistant, intro_line ++ gen st1.gen_calls ++ cl⟩ := by
  simp only [speech_final_turn]
  rw [apply_intro_of_not_introduced _ _ (by exact hi)]
  simp only []
  rw [retry_loop_nil_asked _ _ _ (by exact ha)]
  simp only []
  by_cases hc : 5 ≤ (set_update
      ({ st1 with
        is_finals := [],
        conversation_memory := st1.conversation_memory ++ [⟨Role.user, trim sentence⟩],
        gen_calls := st1.gen_calls + 1, has_introduced := true } :
          SessionState).asked_questions
      (extract_questions (intro_line ++ gen st1.gen_calls))).length ∧
    ¬ ("closing".data <:+: lower (intro_line ++ gen st1.gen_calls))
  · refine ⟨closing_line, Or.inr rfl, ?_, ?_⟩ <;>
      simp [apply_closing, hc, List.getLast?_concat]
  · refine ⟨[], Or.inl rfl, ?_, ?_⟩ <;>
      simp [apply_closing, hc, List.getLast?_concat]

lemma on_message_muted (gen : Nat → List Char) (synthOk : List Char → Bool)
    (playOk : Bool) (ev : TranscriptEvent) (st : SessionState)
    (h : st.mute_microphone = true) :
    on_message gen synthOk playOk ev st = ⟨none, none, st⟩ := by
  rw [on_message, if_pos h]

lemma on_message_empty (gen : Nat → List Char) (synthOk : List Char → Bool)
    (playOk : Bool) (ev : TranscriptEvent) (st : SessionState)
    (h : ev.transcript = []) :
    on_message gen synthOk playOk ev st = ⟨none, none, st⟩ := by
  rw [on_message]
  cases hm : st.mute_microphone with
  | true => rfl
  | false =>
    rw [if_neg (by simp), if_pos (by simp [h])]

lemma on_message_interim (gen : Nat → List Char) (synthOk : List Char → Bool)
    (playOk : Bool) (ev : TranscriptEvent) (st : SessionState)
    (hm : st.mute_microphone = false) (hf : ev.is_final = false) :
    on_message gen synthOk playOk ev st = ⟨none, none, st⟩ := by
  rw [on_message, if_neg (by simp [hm])]
  by_cases hl : ev.transcript.length = 0
  · rw [if_pos hl]
  · rw [if_neg hl, if_neg (by simp [hf])]

lemma on_message_buffering (gen : Nat → List Char) (synthOk : List Char → Bool)
    (playOk : Bool) (ev : TranscriptEvent) (st : SessionState)
    (hm : st.mute_microphone = false) (hl : ev.transcript.length ≠ 0)
    (hf : ev.is_final = true) (hsf : ev.speech_final = false) :
    on_message gen synthOk playOk ev st =
      ⟨none, none, { st with is_finals := st.is_finals ++ [ev.transcript] }⟩ := by
  rw [on_message, if_neg (by simp [hm]), if_neg hl, if_pos (by simp [hf]),
    if_neg (by simp [hsf])]

lemma on_message_speech (gen : Nat → List Char) (synthOk : List Char → Bool)
    (playOk : Bool) (ev : TranscriptEvent) (st : SessionState)
    (hm : st.mute_microphone = false) (hl : ev.transcript.length ≠ 0)
    (hf : ev.is_final = true) (hsf : ev.speech_final = true) :
    on_message gen synthOk playOk ev st =
      speech_final_turn gen synthOk playOk ev.transcript
        { st with is_finals := st.is_finals ++ [ev.transcript] } := by
  rw [on_message, if_neg (by simp [hm]), if_neg hl, if_pos (by simp [hf]),
    if_pos (by simp [hsf])]

/-! ## Claim C1: mute flag after a turn -/

/-- C1, counterexample to the claim as stated: when playback fails
(`playOk = false`), `speak` raises `playErr` out of the turn and the mute flag
is left stuck on — `MuteState` is not false after every turn. -/
theorem c1_counterexample :
    (on_message (fun _ => "Ok.".data) (fun _ => true) false ⟨"hi".data, true, true⟩
        { initial_state with has_introduced := true }).err = some AudioErr.playErr ∧
    (on_message (fun _ => "Ok.".data) (fun _ => true) false ⟨"hi".data, true, true⟩
        { initial_state with has_introduced := true }).state.mute_microphone = true := by
  decide

/-- C1 amended: after any turn in which playback does not fail (whatever the
generation and synthesis adapters do), the mute flag is false again; only a
playback failure can leave it stuck on. -/
theorem c1_mute_cleared (gen : Nat → List Char) (synthOk : List Char → Bool)
    (ev : TranscriptEvent) (st : SessionState) (hm : st.mute_microphone = false) :
    (on_message gen synthOk true ev st).state.mute_microphone = false := by
  by_cases ht : ev.transcript = []
  · rw [on_message_empty gen synthOk true ev st ht]
    exact hm
  · cases hf : ev.is_final with
    | false =>
      rw [on_message_interim gen synthOk true ev st hm hf]
      exact hm
    | true =>
      cases hsf : ev.speech_final with
      | false =>
        rw [on_message_buffering gen synthOk true ev st hm
          (fun h => ht (List.length_eq_zero.mp h)) hf hsf]
        exact hm
      | true =>
        rw [on_message_speech gen synthOk true ev st hm
          (fun h => ht (List.length_eq_zero.mp h)) hf hsf]
        exact speech_final_turn_mute gen synthOk ev.transcript _ (by exact hm)

/-- C1 amended, witness at a concrete turn. -/
theorem c1_witness :
    initial_state.mute_microphone = false ∧
    (on_message (fun _ => "Ok.".data) (fun _ => true) true ⟨"hi".data, true, true⟩
        initial_state).state.mute_microphone = false :=
  ⟨rfl, c1_mute_cleared (fun _ => "Ok.".data) (fun _ => true)
    ⟨"hi".data, true, true⟩ initial_state rfl⟩

/-! ## Claim C2: content of the appended user turn -/

/-- C2, evaluation at the failing input: with the fragment `"Hello there"`
already buffered and the speech-final fragment `"how are you"` arriving, the
code appends only the stripped last fragment as the user turn, not the
space-joined utterance it computes (and prints); the buffer is reset. -/
theorem c2_last_fragment_only :
    (on_message (fun _ => "Ok.".data) (fun _ => true) true
        ⟨"how are you".data, true, true⟩
        buffered_state).state.conversation_memory.head? =
      some ⟨Role.user, "how are you".data⟩ ∧
    joinSpace ["Hello there".data, "how are you".data] =
      "Hello there how are you".data ∧
    ("how are you".data : List Char) ≠ "Hello there how are you".data ∧
    (on_message (fun _ => "Ok.".data) (fun _ => true) true
        ⟨"how are you".data, true, true⟩
        buffered_state).state.is_finals = [] := by
  decide

/-! ## Claim C3: introduction on the first turn -/

/-- C3: on the first turn of a session (`has_introduced` false, no questions
recorded yet), the reply that is spoken and appended to memory carries the
fixed introduction line as a prefix of the raw generated reply — prepended
exactly once — possibly followed by the closing line; `has_introduced` becomes
true, and every later turn keeps it true.  (The duplicate-avoidance loop can
never regenerate on the first turn because the asked-question set is empty,
so the prefix is never lost.) -/
theorem c3_intro_exactly_once (gen : Nat → List Char) (synthOk : List Char → Bool)
    (playOk : Bool) (ev : TranscriptEvent) (st : SessionState)
    (hm : st.mute_microphone = false) (hi : st.has_introduced = false)
    (ha : st.asked_questions = []) (ht : ev.transcript ≠ [])
    (hf : ev.is_final = true) (hsf : ev.speech_final = true) :
    (∃ cl, (cl = [] ∨ cl = closing_line) ∧
      (on_message gen synthOk playOk ev st).spoken =
        some (intro_line ++ gen st.gen_calls ++ cl) ∧
      (on_message gen synthOk playOk ev st).state.conversation_memory.getLast? =
        some ⟨Role.assistant, intro_line ++ gen st.gen_calls ++ cl⟩) ∧
    (on_message gen synthOk playOk ev st).state.has_introduced = true ∧
    ∀ (gen' : Nat → List Char) (synthOk' : List Char → Bool) (playOk' : Bool)
      (ev' : TranscriptEvent) (st' : SessionState), st'.has_introduced = true →
      (on_message gen' synthOk' playOk' ev' st').state.has_introduced = true := by
  rw [on_message_speech gen synthOk playOk ev st hm
    (fun h => ht (List.length_eq_zero.mp h)) hf hsf]
  refine ⟨?_, ?_, ?_⟩
  · exact speech_final_turn_first gen synthOk playOk ev.transcript _
      (by exact hi) (by exact ha)
  · obtain ⟨ai2, -, -, -, h4, -, -⟩ :=
      speech_final_turn_spec gen synthOk playOk ev.transcript
        { st with is_finals := st.is_finals ++ [ev.transcript] }
    exact h4
  · intro gen' synthOk' playOk' ev' st' h'
    by_cases hm' : st'.mute_microphone = true
    · rw [on_message_muted gen' synthOk' playOk' ev' st' hm']
      exact h'
    · have hm'' : st'.mute_microphone = false := by
        cases hx : st'.mute_microphone
        · rfl
        · exact absurd hx hm'
      by_cases ht' : ev'.transcript = []
      · rw [on_message_empty gen' synthOk' playOk' ev' st' ht']
        exact h'
      · cases hf' : ev'.is_final with
        | false =>
          rw [on_message_interim gen' synthOk' playOk' ev' st' hm'' hf']
          exact h'
        | true =>
          cases hsf' : ev'.speech_final with
          | false =>
            rw [on_message_buffering gen' synthOk' playOk' ev' st' hm''
              (fun h => ht' (List.length_eq_zero.mp h)) hf' hsf']
            exact h'
          | true =>
            rw [on_message_speech gen' synthOk' playOk' ev' st' hm''
              (fun h => ht' (List.length_eq_zero.mp h)) hf' hsf']
            obtain ⟨ai2, -, -, -, h4, -, -⟩ :=
              speech_final_turn_spec gen' synthOk' playOk' ev'.transcript
                { st' with is_finals := st'.is_finals ++ [ev'.transcript] }
            exact h4

/-- C3, witness at the concrete first-turn input of Scenario A. -/
theorem c3_witness :
    (initial_state.mute_microphone = false ∧ initial_state.has_introduced = false ∧
      initial_state.asked_questions = [] ∧
      ("Tell me about yourself.".data : List Char) ≠ []) ∧
    ((∃ cl, (cl = [] ∨ cl = closing_line) ∧
      (on_message (fun _ => "What is your name?".data) (fun _ => true) true
          ⟨"Tell me about yourself.".data, true, true⟩ initial_state).spoken =
        some (intro_line ++ (fun _ : Nat => "What is your name?".data)
          initial_state.gen_calls ++ cl) ∧
      (on_message (fun _ => "What is your name?".data) (fun _ => true) true
          ⟨"Tell me about yourself.".data, true, true⟩
          initial_state).state.conversation_memory.getLast? =
        some ⟨Role.assistant, intro_line ++ (fun _ : Nat => "What is your name?".data)
          initial_state.gen_calls ++ cl⟩) ∧
    (on_message (fun _ => "What is your name?".data) (fun _ => true) true
        ⟨"Tell me about yourself.".data, true, true⟩
        initial_state).state.has_introduced = true ∧
    ∀ (gen' : Nat → List Char) (synthOk' : List Char → Bool) (playOk' : Bool)
      (ev' : TranscriptEvent) (st' : SessionState), st'.has_introduced = true →
      (on_message gen' synthOk' playOk' ev' st').state.has_introduced = true) :=
  ⟨⟨rfl, rfl, rfl, by decide⟩,
    c3_intro_exactly_once (fun _ => "What is your name?".data) (fun _ => true) true
      ⟨"Tell me about yourself.".data, true, true⟩ initial_state rfl rfl rfl
      (by decide) rfl rfl⟩

/-! ## Claim C4: retry budget of the duplicate-avoidance loop -/

/-- C4: each turn makes at most 4 generation calls in total (1 initial call
plus at most 3 duplicate-avoidance retries); the loop itself adds at most 3
calls; and with the budget exhausted (`retry_count = 3`, i.e. fuel 0) the
current reply is accepted unchanged, whether or not it is still flagged as a
duplicate. -/
theorem c4_retry_budget :
    (∀ (gen : Nat → List Char) (synthOk : List Char → Bool) (playOk : Bool)
        (ev : TranscriptEvent) (st : SessionState),
      (on_message gen synthOk playOk ev st).state.gen_calls ≤ st.gen_calls + 4) ∧
    (∀ (gen : Nat → List Char) (ai : List Char) (st : SessionState),
      (retry_loop gen ai st).2.gen_calls ≤ st.gen_calls + 3) ∧
    (∀ (gen : Nat → List Char) (ai : List Char) (st : SessionState),
      retry_loop_aux gen 0 ai st = (ai, st)) := by
  refine ⟨?_, ?_, fun _ _ _ => rfl⟩
  · intro gen synthOk playOk ev st
    by_cases hm : st.mute_microphone = true
    · rw [on_message_muted gen synthOk playOk ev st hm]
      exact Nat.le_add_right _ _
    · have hm' : st.mute_microphone = false := by
        cases hx : st.mute_microphone
        · rfl
        · exact absurd hx hm
      by_cases ht : ev.transcript = []
      · rw [on_message_empty gen synthOk playOk ev st ht]
        exact Nat.le_add_right _ _
      · cases hf : ev.is_final with
        | false =>
          rw [on_message_interim gen synthOk playOk ev st hm' hf]
          exact Nat.le_add_right _ _
        | true =>
          cases hsf : ev.speech_final with
          | false =>
            rw [on_message_buffering gen synthOk playOk ev st hm'
              (fun h => ht (List.length_eq_zero.mp h)) hf hsf]
            exact Nat.le_add_right _ _
          | true =>
            rw [on_message_speech gen synthOk playOk ev st hm'
              (fun h => ht (List.length_eq_zero.mp h)) hf hsf]
            obtain ⟨ai2, -, -, -, -, -, h6⟩ :=
              speech_final_turn_spec gen synthOk playOk ev.transcript
                { st with is_finals := st.is_finals ++ [ev.transcript] }
            exact h6
  · intro gen ai st
    exact retry_loop_aux_gen_calls gen 3 ai st

/-! ## Claim C5: the duplicate test -/

/-- C5: `is_duplicate_question text known` is true exactly when some extracted
(and hence already trimmed) question fragment of `text` case-folds to a member
of `known` compared case-insensitively. -/
theorem c5_is_duplicate_iff (t : List Char) (known : List (List Char)) :
    is_duplicate_question t known = true ↔
      ∃ q ∈ extract_questions t, lower q ∈ known.map lower := by
  rw [is_duplicate_question]
  simp only [List.any_eq_true, beq_iff_eq, List.mem_map]
  constructor
  · rintro ⟨q, hq, eq', heq', h⟩
    exact ⟨q, hq, eq', heq', h.symm⟩
  · rintro ⟨q, hq, eq', heq', h⟩
    exact ⟨q, hq, eq', heq', h.symm⟩

/-! ## Claim C6: what recording an accepted reply adds to the set -/

/-- C6, counterexample to the claim as stated: the accepted reply
`"What IS Go?"` is recorded verbatim — trimmed but not case-folded — so
members of the asked-question set are not case-folded strings. -/
theorem c6_counterexample :
    (on_message (fun _ => "What IS Go?".data) (fun _ => true) true
        ⟨"hi".data, true, true⟩
        { initial_state with has_introduced := true }).state.asked_questions =
      ["What IS Go?".data] ∧
    lower "What IS Go?".data ≠ "What IS Go?".data := by
  decide

/-- C6 amended: a turn only ever appends to the asked-question set (it grows
monotonically and never shrinks), every newly added member is a trimmed — but
not case-folded — question fragment extracted from the spoken reply, and every
question fragment of the spoken reply ends up in the set. -/
theorem c6_record_monotone (gen : Nat → List Char) (synthOk : List Char → Bool)
    (playOk : Bool) (ev : TranscriptEvent) (st : SessionState) :
    (∃ r, (on_message gen synthOk playOk ev st).state.asked_questions =
      st.asked_questions ++ r) ∧
    (∀ m ∈ (on_message gen synthOk playOk ev st).state.asked_questions,
      m ∈ st.asked_questions ∨
        (trim m = m ∧ ∃ rep, (on_message gen synthOk playOk ev st).spoken = some rep ∧
          m ∈ extract_questions rep)) ∧
    (∀ rep, (on_message gen synthOk playOk ev st).spoken = some rep →
      ∀ q ∈ extract_questions rep,
        q ∈ (on_message gen synthOk playOk ev st).state.asked_questions) := by
  by_cases hsp : ∃ r, on_message gen synthOk playOk ev st = ⟨none, none, r⟩ ∧
      r.asked_questions = st.asked_questions
  · obtain ⟨r, hr, hra⟩ := hsp
    rw [hr]
    refine ⟨⟨[], by simp [hra]⟩, ?_, ?_⟩
    · intro m hm
      rw [hra] at hm
      exact Or.inl hm
    · intro rep hrep
      cases hrep
  · have hm' : st.mute_microphone = false := by
      by_contra hx
      have hmt : st.mute_microphone = true := by
        cases hy : st.mute_microphone
        · exact absurd hy hx
        · rfl
      exact hsp ⟨st, on_message_muted gen synthOk playOk ev st hmt, rfl⟩
    have ht : ev.transcript ≠ [] := by
      intro hx
      exact hsp ⟨st, on_message_empty gen synthOk playOk ev st hx, rfl⟩
    have hf : ev.is_final = true := by
      cases hx : ev.is_final
      · exact (hsp ⟨st, on_message_interim gen synthOk playOk ev st hm' hx, rfl⟩).elim
      · rfl
    have hsf : ev.speech_final = true := by
      cases hx : ev.speech_final
      · exact (hsp ⟨{ st with is_finals := st.is_finals ++ [ev.transcript] },
          on_message_buffering gen synthOk playOk ev st hm'
            (fun h => ht (List.length_eq_zero.mp h)) hf hx, rfl⟩).elim
      · rfl
    rw [on_message_speech gen synthOk playOk ev st hm'
      (fun h => ht (List.length_eq_zero.mp h)) hf hsf]
    obtain ⟨ai2, h1, h2, -, -, -, -⟩ :=
      speech_final_turn_spec gen synthOk playOk ev.transcript
        { st with is_finals := st.is_finals ++ [ev.transcript] }
    refine ⟨?_, ?_, ?_⟩
    · rw [h2]
      exact set_update_append _ _
    · intro m hm
      rw [h2] at hm
      rcases mem_set_update _ _ hm with hmem | hmem
      · exact Or.inl hmem
      · refine Or.inr ⟨extract_questions_trimmed _ _ hmem, _, h1, ?_⟩
        rw [extract_apply_closing]
        exact hmem
    · intro rep hrep q hq
      rw [h1] at hrep
      have hrep' := Option.some.inj hrep
      rw [← hrep', extract_apply_closing] at hq
      rw [h2]
      exact subset_set_update _ _ hq

/-! ## Claim C7: when the closing statement is appended -/

/-- C7, counterexample to the claim as stated: the closing check looks only
for the substring `"closing"` in the current reply — which the appended
closing statement does not contain — so a closing statement is appended again
on the next turn even though one was already produced. -/
theorem c7_counterexample :
    (on_message (fun _ => "Ok.".data) (fun _ => true) true ⟨"ok".data, true, true⟩
        five_questions_state).state.conversation_memory.getLast? =
      some ⟨Role.assistant, "Ok.".data ++ closing_line⟩ ∧
    (on_message (fun _ => "Ok.".data) (fun _ => true) true ⟨"ok".data, true, true⟩
        (on_message (fun _ => "Ok.".data) (fun _ => true) true ⟨"ok".data, true, true⟩
          five_questions_state).state).state.conversation_memory.getLast? =
      some ⟨Role.assistant, "Ok.".data ++ closing_line⟩ := by
  decide

/-- C7 amended: the closing statement is appended to a reply exactly when the
asked-question set has reached size 5 and the reply does not contain the
substring `"closing"` case-insensitively; the appended closing statement
itself does not contain that substring, which is why later replies can receive
the closing again (no session-level latch exists). -/
theorem c7_closing_condition (asked : List (List Char)) (ai : List Char) :
    (apply_closing asked ai = ai ++ closing_line ↔
      5 ≤ asked.length ∧ ¬ ("closing".data <:+: lower ai)) ∧
    ¬ ("closing".data <:+: lower closing_line) := by
  constructor
  · constructor
    · intro h
      by_contra hc
      rw [apply_closing, if_neg hc] at h
      have hlen := congrArg List.length h
      rw [List.length_append] at hlen
      have hcl : 0 < closing_line.length := by decide
      omega
    · intro hc
      rw [apply_closing, if_pos hc]
  · decide

/-! ## Claim C8: sentence segmentation -/

/-- C8, counterexample to the claim as stated: for the empty input (which does
not end at a sentence boundary — there is no punctuation at all) the returned
trailing segment is nevertheless the empty string. -/
theorem c8_counterexample :
    segment_text_by_sentence [] = [[]] ∧ ¬ ends_at_sentence_boundary [] := by
  constructor
  · rfl
  · rintro ⟨pre, tail, p, heq, hne, -, -, -⟩
    exact hne (List.append_eq_nil.mp heq.symm).2

/-- C8 amended: every segment is a trimmed chunk of a decomposition of the
input (so the concatenation reconstructs the input up to the trimmed
whitespace); no segment other than the trailing one is empty; and the trailing
segment can only be empty when the input is whitespace-only (including empty)
or ends exactly at a sentence boundary. -/
theorem c8_segments (text : List Char) :
    (∃ chunks : List (List Char), chunks.flatten = text ∧
      segment_text_by_sentence text = chunks.map trim) ∧
    (∀ seg ∈ (segment_text_by_sentence text).dropLast, seg ≠ []) ∧
    ((segment_text_by_sentence text).getLast? ≠ some [] ∨
      (∀ c ∈ text, isWs c = true) ∨ ends_at_sentence_boundary text) := by
  refine ⟨?_, ?_, ?_⟩
  · obtain ⟨chunks, h1, h2⟩ := segmentsFrom_chunks text (boundaryIndices text) 0
      (fun b hb => (isBoundary_spec text b (mem_boundaryIndices text b hb)).2.1)
      (fun b _ => by omega) (boundaryIndices_pairwise text)
    exact ⟨chunks, by simpa using h1, h2⟩
  · exact segmentsFrom_dropLast_ne_nil text (boundaryIndices text) 0
      (fun b hb => mem_boundaryIndices text b hb)
      (fun b hb => by
        have := (isBoundary_spec text b (mem_boundaryIndices text b hb)).1
        omega)
      (boundaryIndices_pairwise text)
  · by_cases h : (segment_text_by_sentence text).getLast? = some []
    · exact Or.inr (last_segment_empty_cases text h)
    · exact Or.inl h

/-! ## Claim C9: lifecycle of the temporary audio file -/

/-- C9, counterexample to the claim as stated: the temporary file (created
with `delete=False`) is left behind on both error exits — a synthesis failure
and a playback failure. -/
theorem c9_counterexample :
    (process_and_play_audio (fun _ => false) true "Hi.".data false).1 =
      some AudioErr.synthErr ∧
    (process_and_play_audio (fun _ => false) true "Hi.".data false).2.2 = true ∧
    (process_and_play_audio (fun _ => true) false "Hi.".data false).1 =
      some AudioErr.playErr ∧
    (process_and_play_audio (fun _ => true) false "Hi.".data false).2.2 = true := by
  decide

/-- C9 amended: each call creates a fresh temporary audio file, and the file
still exists when the call returns precisely when the call raised an error —
it is deleted only on the fully successful path. -/
theorem c9_temp_lifecycle (synthOk : List Char → Bool) (playOk : Bool)
    (text : List Char) (mute : Bool) :
    (process_and_play_audio synthOk playOk text mute).2.2 =
      (process_and_play_audio synthOk playOk text mute).1.isSome :=
  process_and_play_audio_temp synthOk playOk text mute

/-! ## Claim C10: empty transcript events are discarded entirely -/

/-- C10: an event with an empty transcript — even a final, speech-final one —
leaves the whole session state unchanged (fragment buffer, conversation
memory, asked-question set, mute flag, `has_introduced`, and the generation
call counter), raises nothing, and speaks nothing. -/
theorem c10_empty_discarded (gen : Nat → List Char) (synthOk : List Char → Bool)
    (playOk : Bool) (ev : TranscriptEvent) (st : SessionState)
    (h : ev.transcript = []) :
    on_message gen synthOk playOk ev st = ⟨none, none, st⟩ :=
  on_message_empty gen synthOk playOk ev st h

/-- C10, witness at a concrete final, speech-final, empty-transcript event. -/
theorem c10_witness :
    (⟨[], true, true⟩ : TranscriptEvent).transcript = [] ∧
    on_message (fun _ => "Ok.".data) (fun _ => true) true
        (⟨[], true, true⟩ : TranscriptEvent) initial_state =
      ⟨none, none, initial_state⟩ :=
  ⟨rfl, c10_empty_discarded (fun _ => "Ok.".data) (fun _ => true) true
    ⟨[], true, true⟩ initial_state rfl⟩

end InterviewAgent
